import Mathlib

/-!
Verification of the mortgage PV calculator engine
(`mortgage_pv_calculator.py`): the payment formula, the closed-form
outstanding-balance (PV) function, the amortization-schedule generator and
the accelerated-payoff solver.  Monetary quantities and rates are modelled
as exact rationals; the logarithm-based period-count solve of the
accelerated-payoff solver is modelled over the reals.
-/

namespace Mortgage

/-- ASCII lower-casing of a string, character by character: the model of
Python's `str.lower()` as applied to frequency names. -/
def lower_str (s : String) : String := ⟨s.data.map Char.toLower⟩

/-- The frequency table `{'monthly': 12, 'quarterly': 4, 'annual': 1}`,
looked up with the lower-cased frequency string; an unrecognized frequency
yields `none` (the Python code raises `KeyError`). -/
def freq_map (s : String) : Option ℕ :=
  if lower_str s = "monthly" then some 12
  else if lower_str s = "quarterly" then some 4
  else if lower_str s = "annual" then some 1
  else none

/-- Body of `calculate_payment` once the periods-per-year value is known:
`y = annual_rate / periods_per_year`, `n = years * periods_per_year`, and
the payment is `principal / n` when `y = 0`, else the annuity formula
`principal * (y * (1+y)^n) / ((1+y)^n - 1)`. -/
def calculate_payment_with (principal annual_rate : ℚ) (years ppy : ℕ) :
    ℚ × ℚ × ℕ :=
  let y : ℚ := annual_rate / ppy
  let n : ℕ := years * ppy
  let payment : ℚ :=
    if y = 0 then principal / n
    else principal * (y * (1 + y) ^ n) / ((1 + y) ^ n - 1)
  (payment, y, n)

/-- Model of `calculate_payment(principal, annual_rate, years, frequency)`:
fails (`none`) when the frequency is not in the table. -/
def calculate_payment (principal annual_rate : ℚ) (years : ℕ)
    (frequency : String) : Option (ℚ × ℚ × ℕ) :=
  (freq_map frequency).map fun ppy =>
    calculate_payment_with principal annual_rate years ppy

/-- Model of `calculate_outstanding_pv(payment, y, n, k)`:
`remaining_periods = n - k`;
returns `0` when no periods remain, `payment * remaining` when `y = 0`, and
otherwise the PV-of-annuity formula
`payment * ((1+y)^remaining - 1) / (y * (1+y)^remaining)`. -/
def calculate_outstanding_pv (payment y : ℚ) (n k : ℕ) : ℚ :=
  let remaining_periods : ℕ := n - k
  if remaining_periods = 0 then 0
  else if y = 0 then payment * remaining_periods
  else payment * ((1 + y) ^ remaining_periods - 1) /
    (y * (1 + y) ^ remaining_periods)

/-- One row of the amortization schedule produced by
`generate_amortization_schedule` (the keys of the Python dict). -/
structure ScheduleRow where
  payment_number : ℕ
  payment_amount : ℚ
  interest_paid : ℚ
  principal_paid : ℚ
  pv_of_principal : ℚ
  outstanding_balance : ℚ
  cumulative_interest : ℚ
  cumulative_principal : ℚ
deriving DecidableEq, Repr

/-- The `for k in range(1, n+1)` loop of `generate_amortization_schedule`,
with the carried state (`outstanding_prev`, the two cumulative sums) made
explicit; `count` is the number of iterations still to run and `k` the
current payment index. -/
def amort_loop (payment y : ℚ) (n : ℕ)
    (outstanding_prev cum_interest cum_principal : ℚ) (k : ℕ) :
    ℕ → List ScheduleRow
  | 0 => []
  | count + 1 =>
    let interest_paid := outstanding_prev * y
    let principal_paid := payment - interest_paid
    let pv_principal := principal_paid / (1 + y) ^ k
    let outstanding_balance := calculate_outstanding_pv payment y n k
    let ci := cum_interest + interest_paid
    let cp := cum_principal + principal_paid
    { payment_number := k
      payment_amount := payment
      interest_paid := interest_paid
      principal_paid := principal_paid
      pv_of_principal := pv_principal
      outstanding_balance := outstanding_balance
      cumulative_interest := ci
      cumulative_principal := cp } ::
      amort_loop payment y n outstanding_balance ci cp (k + 1) count

/-- Body of `generate_amortization_schedule` once the periods-per-year
value is known: obtain `(payment, y, n)` from the payment calculator and
run the loop for `k = 1..n` starting from `outstanding_prev = principal`
and zero cumulative sums. -/
def generate_core (principal annual_rate : ℚ) (years ppy : ℕ) :
    List ScheduleRow × ℚ × ℚ × ℕ :=
  let t := calculate_payment_with principal annual_rate years ppy
  (amort_loop t.1 t.2.1 t.2.2 principal 0 0 1 t.2.2, t.1, t.2.1, t.2.2)

/-- Model of `generate_amortization_schedule(principal, annual_rate,
years, frequency)`, failing on an unrecognized frequency (the lookup
inside `calculate_payment` raises). -/
def generate_amortization_schedule (principal annual_rate : ℚ) (years : ℕ)
    (frequency : String) : Option (List ScheduleRow × ℚ × ℚ × ℕ) :=
  (freq_map frequency).map fun ppy =>
    generate_core principal annual_rate years ppy

/-- One row of the accelerated-payoff schedule built by
`calculate_accelerated_payoff` (its dict has no cumulative-principal key). -/
structure AccelRow where
  payment_number : ℕ
  payment_amount : ℚ
  interest_paid : ℚ
  principal_paid : ℚ
  pv_of_principal : ℚ
  outstanding_balance : ℚ
  cumulative_interest : ℚ
deriving DecidableEq, Repr

/-- The `for k in range(1, n_new+1)` loop of `calculate_accelerated_payoff`:
the carried state is the running `outstanding` balance and the cumulative
interest; the final index `k = n_total` pays off the whole remaining
balance, every other index pays the fixed `increased_payment`; the reported
balance is clamped with `max 0`. -/
def accel_loop (y increased_payment : ℚ) (n_total : ℕ)
    (outstanding cum_interest : ℚ) (k : ℕ) : ℕ → List AccelRow
  | 0 => []
  | count + 1 =>
    let interest_paid := outstanding * y
    let principal_paid :=
      if k = n_total then outstanding else increased_payment - interest_paid
    let actual_payment :=
      if k = n_total then outstanding + interest_paid else increased_payment
    let pv_principal := principal_paid / (1 + y) ^ k
    let out2 := outstanding - principal_paid
    let ci := cum_interest + interest_paid
    { payment_number := k
      payment_amount := actual_payment
      interest_paid := interest_paid
      principal_paid := principal_paid
      pv_of_principal := pv_principal
      outstanding_balance := max 0 out2
      cumulative_interest := ci } ::
      accel_loop y increased_payment n_total out2 ci (k + 1) count

/-- The new period count solved for by `calculate_accelerated_payoff`:
`principal / increased_payment` when `y = 0`, else
`ln(increased_payment / (increased_payment - principal*y)) / ln(1+y)`,
in both cases rounded up to the next integer (`int(np.ceil(...))`). -/
noncomputable def accel_n_new (principal y increased_payment : ℚ) : ℕ :=
  if y = 0 then ⌈principal / increased_payment⌉₊
  else
    ⌈Real.log ((increased_payment : ℝ) /
        ((increased_payment : ℝ) - (principal : ℝ) * (y : ℝ))) /
      Real.log (1 + (y : ℝ))⌉₊

/-- The result record of a feasible accelerated-payoff computation. -/
structure AcceleratedPlan where
  n_new : ℕ
  periods_saved : ℤ
  interest_saved : ℚ
  new_schedule : List AccelRow
deriving DecidableEq, Repr

/-- Outcome of `calculate_accelerated_payoff`: a `KeyError` on the
frequency lookup, the `(None, None, None, None)` infeasible sentinel, or a
feasible plan. -/
inductive AccelResult where
  | invalid_frequency : AccelResult
  | infeasible : AccelResult
  | plan : AcceleratedPlan → AccelResult
deriving DecidableEq, Repr

/-- The feasible-case body of `calculate_accelerated_payoff`: solve the
new period count, build the new schedule by forward simulation
(`k = 1..n_new`), regenerate a reference schedule over the padded term of
`int(n_new / periods_per_year) + 5` years, and compare: `periods_saved` is
the reference length minus `n_new`, `interest_saved` is the difference of
the two final cumulative-interest entries (pandas `.iloc[-1]`). -/
noncomputable def accel_plan (principal annual_rate increased_payment : ℚ)
    (ppy : ℕ) : AcceleratedPlan :=
  let y := annual_rate / ppy
  let n_new := accel_n_new principal y increased_payment
  let new_rows := accel_loop y increased_payment n_new principal 0 1 n_new
  let ref := generate_core principal annual_rate (n_new / ppy + 5) ppy
  let periods_saved : ℤ := (ref.1.length : ℤ) - (n_new : ℤ)
  let original_total_interest :=
    (ref.1.map fun r => r.cumulative_interest).getLastD 0
  let new_total_interest :=
    (new_rows.map fun r => r.cumulative_interest).getLastD 0
  { n_new := n_new
    periods_saved := periods_saved
    interest_saved := original_total_interest - new_total_interest
    new_schedule := new_rows }

/-- Model of `calculate_accelerated_payoff(principal, annual_rate,
original_payment, increased_payment, frequency)`.
The `original_payment` argument is taken
(as in the source) but never read.  A payment at or below the
interest-only floor `principal * y` yields the infeasible sentinel. -/
noncomputable def calculate_accelerated_payoff (principal annual_rate
    original_payment increased_payment : ℚ) (frequency : String) :
    AccelResult :=
  match freq_map frequency with
  | none => .invalid_frequency
  | some ppy =>
    let y := annual_rate / ppy
    let min_payment := principal * y
    if increased_payment ≤ min_payment then .infeasible
    else .plan (accel_plan principal annual_rate increased_payment ppy)

/-- Spec-side formulation for the refinement claim: the iterative
balance recurrence `balance_k = balance_(k-1) * (1+r) - payment` starting
from `balance_0 = principal`, which §4.2 of the spec asserts to agree with
the closed-form PV balance for the fixed-payment case. -/
def iterative_balance (principal payment y : ℚ) : ℕ → ℚ
  | 0 => principal
  | k + 1 => iterative_balance principal payment y k * (1 + y) - payment

/-- The balance carried forward by the accelerated-payoff loop before the
final period: after `k` full payments of `increased_payment`,
`b_k = b_(k-1) * (1+y) - increased_payment` with `b_0 = principal`. -/
def pay_forward (principal y increased_payment : ℚ) : ℕ → ℚ
  | 0 => principal
  | k + 1 => pay_forward principal y increased_payment k * (1 + y) -
      increased_payment

/-! ### The closed-form PV balance, as a function of the remaining periods -/

/-- The function `calculate_outstanding_pv` in terms of
`remaining_periods` alone. -/
def pv_remaining (payment y : ℚ) (m : ℕ) : ℚ :=
  if m = 0 then 0
  else if y = 0 then payment * m
  else payment * ((1 + y) ^ m - 1) / (y * (1 + y) ^ m)

lemma calculate_outstanding_pv_eq_pv_remaining (payment y : ℚ) (n k : ℕ) :
    calculate_outstanding_pv payment y n k = pv_remaining payment y (n - k) :=
  rfl

lemma pv_remaining_zero (payment y : ℚ) : pv_remaining payment y 0 = 0 := rfl

lemma pv_remaining_of_ne_zero (payment y : ℚ) (hy : y ≠ 0) (m : ℕ) :
    pv_remaining payment y m =
      payment * ((1 + y) ^ m - 1) / (y * (1 + y) ^ m) := by
  rcases eq_or_ne m 0 with rfl | hm
  · simp [pv_remaining]
  · rw [pv_remaining, if_neg hm, if_neg hy]

lemma pv_remaining_zero_rate (payment : ℚ) (m : ℕ) :
    pv_remaining payment 0 m = payment * m := by
  rcases eq_or_ne m 0 with rfl | hm
  · simp [pv_remaining]
  · rw [pv_remaining, if_neg hm, if_pos rfl]

/-- One step of the balance recurrence, in terms of remaining periods:
the PV over `m` remaining periods is the PV over `m+1` remaining periods
rolled forward one period and net of one payment. -/
lemma pv_remaining_step (payment y : ℚ) (h1 : (1 : ℚ) + y ≠ 0) (m : ℕ) :
    pv_remaining payment y m =
      pv_remaining payment y (m + 1) * (1 + y) - payment := by
  by_cases hy : y = 0
  · subst hy
    rw [pv_remaining_zero_rate, pv_remaining_zero_rate]
    push_cast
    ring
  · rw [pv_remaining_of_ne_zero payment y hy, pv_remaining_of_ne_zero payment y hy]
    have hp : (1 + y) ^ m ≠ 0 := pow_ne_zero _ h1
    have hp1 : (1 + y) ^ (m + 1) ≠ 0 := pow_ne_zero _ h1
    field_simp
    ring

/-- Adding one remaining period adds the discounted value of one payment. -/
lemma pv_remaining_succ_sub (payment y : ℚ) (hy : y ≠ 0)
    (h1 : (1 : ℚ) + y ≠ 0) (m : ℕ) :
    pv_remaining payment y (m + 1) - pv_remaining payment y m =
      payment / (1 + y) ^ (m + 1) := by
  rw [pv_remaining_of_ne_zero payment y hy, pv_remaining_of_ne_zero payment y hy]
  have hp : (1 + y) ^ m ≠ 0 := pow_ne_zero _ h1
  have hp1 : (1 + y) ^ (m + 1) ≠ 0 := pow_ne_zero _ h1
  field_simp
  ring

lemma pv_remaining_le_succ (payment y : ℚ) (hpay : 0 ≤ payment)
    (hy : 0 ≤ y) (m : ℕ) :
    pv_remaining payment y m ≤ pv_remaining payment y (m + 1) := by
  rcases eq_or_lt_of_le hy with h0 | h0
  · rw [← h0, pv_remaining_zero_rate, pv_remaining_zero_rate]
    have hm : (m : ℚ) ≤ ((m + 1 : ℕ) : ℚ) := by push_cast; linarith
    exact mul_le_mul_of_nonneg_left hm hpay
  · have h1 : (0 : ℚ) < 1 + y := by linarith
    have hdiff := pv_remaining_succ_sub payment y (ne_of_gt h0) (ne_of_gt h1) m
    have hnn : 0 ≤ payment / (1 + y) ^ (m + 1) :=
      div_nonneg hpay (le_of_lt (pow_pos h1 _))
    linarith

lemma pv_remaining_mono (payment y : ℚ) (hpay : 0 ≤ payment) (hy : 0 ≤ y) :
    Monotone (pv_remaining payment y) :=
  monotone_nat_of_le_succ (pv_remaining_le_succ payment y hpay hy)

/-- The closed-form balance satisfies the forward recurrence
`balance_(k+1) = balance_k * (1+y) - payment` strictly inside the term. -/
lemma ob_step (payment y : ℚ) (n k : ℕ) (h1 : (1 : ℚ) + y ≠ 0)
    (hk : k < n) :
    calculate_outstanding_pv payment y n (k + 1) =
      calculate_outstanding_pv payment y n k * (1 + y) - payment := by
  rw [calculate_outstanding_pv_eq_pv_remaining,
    calculate_outstanding_pv_eq_pv_remaining]
  have h2 : n - k = (n - (k + 1)) + 1 := by omega
  rw [h2]
  exact pv_remaining_step payment y h1 (n - (k + 1))

/-- The PV of the full payment stream at the annuity payment of
`calculate_payment` recovers the principal exactly. -/
lemma payment_pv_full (principal y : ℚ) (n : ℕ) (hy : 0 ≤ y) (hn : 0 < n)
    (payment : ℚ)
    (hpay : payment = if y = 0 then principal / n
      else principal * (y * (1 + y) ^ n) / ((1 + y) ^ n - 1)) :
    pv_remaining payment y n = principal := by
  rcases eq_or_lt_of_le hy with h0 | h0
  · rw [← h0] at hpay ⊢
    rw [pv_remaining_zero_rate, hpay, if_pos rfl]
    have hn' : (0 : ℚ) < n := by exact_mod_cast hn
    field_simp
  · have hy' : y ≠ 0 := ne_of_gt h0
    have h1 : (0 : ℚ) < 1 + y := by linarith
    have hA : 1 < (1 + y) ^ n := one_lt_pow₀ (by linarith) hn.ne'
    have hA0 : (1 + y) ^ n ≠ 0 := ne_of_gt (pow_pos h1 n)
    have hA1 : (1 + y) ^ n - 1 ≠ 0 := ne_of_gt (by linarith)
    rw [pv_remaining_of_ne_zero payment y hy', hpay, if_neg hy']
    field_simp

/-! ### Closed-form characterization of the schedule rows -/

lemma calculate_payment_with_eq (principal annual_rate : ℚ) (years ppy : ℕ) :
    calculate_payment_with principal annual_rate years ppy =
      (if annual_rate / (ppy : ℚ) = 0 then principal / ((years * ppy : ℕ) : ℚ)
       else principal * ((annual_rate / ppy) *
          (1 + annual_rate / ppy) ^ (years * ppy)) /
         ((1 + annual_rate / ppy) ^ (years * ppy) - 1),
       annual_rate / ppy, years * ppy) := rfl

/-- The row the schedule loop produces at payment index `k`, in closed
form: interest is charged on the closed-form balance after `k-1` payments,
and the cumulative sums telescope against the balance. -/
def amort_row (payment y principal : ℚ) (n k : ℕ) : ScheduleRow where
  payment_number := k
  payment_amount := payment
  interest_paid := calculate_outstanding_pv payment y n (k - 1) * y
  principal_paid := payment - calculate_outstanding_pv payment y n (k - 1) * y
  pv_of_principal :=
    (payment - calculate_outstanding_pv payment y n (k - 1) * y) / (1 + y) ^ k
  outstanding_balance := calculate_outstanding_pv payment y n k
  cumulative_interest :=
    k * payment - (principal - calculate_outstanding_pv payment y n k)
  cumulative_principal := principal - calculate_outstanding_pv payment y n k

/-- The list `[amort_row k, amort_row (k+1), ...]` of length `c`. -/
def amort_rows_from (payment y principal : ℚ) (n : ℕ) :
    ℕ → ℕ → List ScheduleRow
  | _, 0 => []
  | k, c + 1 =>
    amort_row payment y principal n k ::
      amort_rows_from payment y principal n (k + 1) c

/-- The schedule loop, started in the consistent state at index `k`,
produces exactly the closed-form rows.  The loop's carried balance after a
row is the closed-form PV balance, so the state stays consistent. -/
lemma amort_loop_eq_rows (payment y principal : ℚ) (n : ℕ)
    (h1 : (1 : ℚ) + y ≠ 0) :
    ∀ (c k : ℕ), 1 ≤ k → k + c = n + 1 →
      amort_loop payment y n (calculate_outstanding_pv payment y n (k - 1))
        (((k - 1 : ℕ) : ℚ) * payment -
          (principal - calculate_outstanding_pv payment y n (k - 1)))
        (principal - calculate_outstanding_pv payment y n (k - 1)) k c =
      amort_rows_from payment y principal n k c := by
  intro c
  induction c with
  | zero => intro k _ _; rfl
  | succ c ih =>
    intro k hk1 hkc
    obtain ⟨j, rfl⟩ : ∃ j, k = j + 1 := ⟨k - 1, by omega⟩
    have hjn : j < n := by omega
    have hstep := ob_step payment y n j h1 hjn
    simp only [Nat.add_sub_cancel]
    simp only [amort_loop, amort_rows_from]
    have hci : (((j : ℕ) : ℚ) * payment -
          (principal - calculate_outstanding_pv payment y n j)) +
          calculate_outstanding_pv payment y n j * y =
        (((j + 1 : ℕ) : ℚ)) * payment -
          (principal - calculate_outstanding_pv payment y n (j + 1)) := by
      rw [hstep]; push_cast; ring
    have hcp : (principal - calculate_outstanding_pv payment y n j) +
          (payment - calculate_outstanding_pv payment y n j * y) =
        principal - calculate_outstanding_pv payment y n (j + 1) := by
      rw [hstep]; ring
    congr 1
    · simp only [amort_row, ScheduleRow.mk.injEq, Nat.add_sub_cancel,
        and_true, true_and]
      exact ⟨hci, hcp⟩
    · rw [hci, hcp]
      have htail := ih (j + 1 + 1) (by omega) (by omega)
      rw [Nat.add_sub_cancel] at htail
      exact htail

lemma amort_rows_from_length (payment y principal : ℚ) (n : ℕ) :
    ∀ (c k : ℕ), (amort_rows_from payment y principal n k c).length = c := by
  intro c
  induction c with
  | zero => intro k; rfl
  | succ c ih => intro k; simp [amort_rows_from, ih (k + 1)]

lemma amort_rows_from_get (payment y principal : ℚ) (n : ℕ) :
    ∀ (c k j : ℕ) (h : j < (amort_rows_from payment y principal n k c).length),
      (amort_rows_from payment y principal n k c).get ⟨j, h⟩ =
        amort_row payment y principal n (k + j) := by
  intro c
  induction c with
  | zero => intro k j h; simp [amort_rows_from_length] at h
  | succ c ih =>
    intro k j h
    cases j with
    | zero => simp [amort_rows_from]
    | succ j =>
      show (amort_row payment y principal n k ::
          amort_rows_from payment y principal n (k + 1) c).get ⟨j + 1, h⟩ =
        amort_row payment y principal n (k + (j + 1))
      simp only [List.get_cons_succ]
      rw [ih (k + 1) j, show k + 1 + j = k + (j + 1) from by omega]

lemma amort_rows_from_getLast (payment y principal : ℚ) (n : ℕ) :
    ∀ (c k : ℕ), (amort_rows_from payment y principal n k (c + 1)).getLast? =
      some (amort_row payment y principal n (k + c)) := by
  intro c
  induction c with
  | zero => intro k; rfl
  | succ c ih =>
    intro k
    have he : amort_rows_from payment y principal n k (c + 1 + 1) =
        amort_row payment y principal n k ::
          amort_row payment y principal n (k + 1) ::
            amort_rows_from payment y principal n (k + 1 + 1) c := rfl
    rw [he, List.getLast?_cons_cons]
    have he2 : amort_row payment y principal n (k + 1) ::
        amort_rows_from payment y principal n (k + 1 + 1) c =
        amort_rows_from payment y principal n (k + 1) (c + 1) := rfl
    rw [he2, ih (k + 1), show k + 1 + c = k + (c + 1) from by omega]

lemma amort_rows_from_mem (payment y principal : ℚ) (n : ℕ) :
    ∀ (c k : ℕ) (row : ScheduleRow),
      row ∈ amort_rows_from payment y principal n k c →
        ∃ i, i < c ∧ row = amort_row payment y principal n (k + i) := by
  intro c
  induction c with
  | zero => intro k row h; simp [amort_rows_from] at h
  | succ c ih =>
    intro k row h
    have he : amort_rows_from payment y principal n k (c + 1) =
        amort_row payment y principal n k ::
          amort_rows_from payment y principal n (k + 1) c := rfl
    rw [he] at h
    rcases List.mem_cons.mp h with h | h
    · exact ⟨0, by omega, by simpa using h⟩
    · obtain ⟨i, hi, hrow⟩ := ih (k + 1) row h
      refine ⟨i + 1, by omega, ?_⟩
      rw [hrow, show k + 1 + i = k + (i + 1) from by omega]

/-- The generator `generate_core` produces exactly the closed-form rows
`amort_row 1, ..., amort_row n`: the initial balance `principal` is the
full-stream PV of the annuity payment, so the loop starts (and stays) in
the consistent state. -/
lemma generate_core_rows (principal annual_rate : ℚ) (years ppy : ℕ)
    (hr : 0 ≤ annual_rate) (hyears : 0 < years) (hppy : 0 < ppy) :
    (generate_core principal annual_rate years ppy).1 =
      amort_rows_from (calculate_payment_with principal annual_rate years ppy).1
        (annual_rate / ppy) principal (years * ppy) 1 (years * ppy) := by
  have hy : 0 ≤ annual_rate / (ppy : ℚ) :=
    div_nonneg hr (Nat.cast_nonneg ppy)
  have h1 : (1 : ℚ) + annual_rate / ppy ≠ 0 := by
    intro hc; rw [← hc] at hy; linarith
  have hn : 0 < years * ppy := Nat.mul_pos hyears hppy
  have h0 : calculate_outstanding_pv
      (calculate_payment_with principal annual_rate years ppy).1
      (annual_rate / ppy) (years * ppy) 0 = principal := by
    rw [calculate_outstanding_pv_eq_pv_remaining, Nat.sub_zero]
    refine payment_pv_full principal (annual_rate / ppy) (years * ppy) hy hn _ ?_
    rw [calculate_payment_with_eq]
  have key := amort_loop_eq_rows
    (calculate_payment_with principal annual_rate years ppy).1
    (annual_rate / ppy) principal (years * ppy) h1 (years * ppy) 1
    (le_refl 1) (by omega)
  rw [show (1 : ℕ) - 1 = 0 from rfl, h0] at key
  have hz1 : ((0 : ℕ) : ℚ) *
      (calculate_payment_with principal annual_rate years ppy).1 -
      (principal - principal) = 0 := by push_cast; ring
  have hz2 : principal - principal = 0 := by ring
  rw [hz1, hz2] at key
  exact key

/-! ### Closed-form characterization of the accelerated schedule rows -/

/-- The row the accelerated loop produces at payment index `k` (valid for
`1 ≤ k ≤ n_total`): before the final index the fixed `increased_payment`
is split against the carried balance `pay_forward (k-1)`; at the final
index the whole remaining balance is paid off. -/
def accel_row (principal y inc : ℚ) (nt k : ℕ) : AccelRow :=
  if k = nt then
    { payment_number := k
      payment_amount := pay_forward principal y inc (k - 1) +
        pay_forward principal y inc (k - 1) * y
      interest_paid := pay_forward principal y inc (k - 1) * y
      principal_paid := pay_forward principal y inc (k - 1)
      pv_of_principal := pay_forward principal y inc (k - 1) / (1 + y) ^ k
      outstanding_balance := max 0 (pay_forward principal y inc (k - 1) -
        pay_forward principal y inc (k - 1))
      cumulative_interest := k * inc + pay_forward principal y inc k -
        principal }
  else
    { payment_number := k
      payment_amount := inc
      interest_paid := pay_forward principal y inc (k - 1) * y
      principal_paid := inc - pay_forward principal y inc (k - 1) * y
      pv_of_principal :=
        (inc - pay_forward principal y inc (k - 1) * y) / (1 + y) ^ k
      outstanding_balance := max 0 (pay_forward principal y inc k)
      cumulative_interest := k * inc + pay_forward principal y inc k -
        principal }

/-- The list `[accel_row k, accel_row (k+1), ...]` of length `c`. -/
def accel_rows_from (principal y inc : ℚ) (nt : ℕ) :
    ℕ → ℕ → List AccelRow
  | _, 0 => []
  | k, c + 1 =>
    accel_row principal y inc nt k ::
      accel_rows_from principal y inc nt (k + 1) c

/-- The accelerated loop, started in the consistent state at index `k`
(carried balance `pay_forward (k-1)`), produces the closed-form rows. -/
lemma accel_loop_eq_rows (principal y inc : ℚ) (nt : ℕ) :
    ∀ (c k : ℕ), 1 ≤ k → k + c = nt + 1 →
      accel_loop y inc nt (pay_forward principal y inc (k - 1))
        (((k - 1 : ℕ) : ℚ) * inc + pay_forward principal y inc (k - 1) -
          principal) k c =
      accel_rows_from principal y inc nt k c := by
  intro c
  induction c with
  | zero => intro k _ _; rfl
  | succ c ih =>
    intro k hk1 hkc
    obtain ⟨j, rfl⟩ : ∃ j, k = j + 1 := ⟨k - 1, by omega⟩
    simp only [Nat.add_sub_cancel]
    have hb : pay_forward principal y inc (j + 1) =
        pay_forward principal y inc j * (1 + y) - inc := rfl
    have hci : ((j : ℚ)) * inc + pay_forward principal y inc j - principal +
        pay_forward principal y inc j * y =
        (((j + 1 : ℕ) : ℚ)) * inc + pay_forward principal y inc (j + 1) -
          principal := by
      rw [hb]; push_cast; ring
    by_cases hfin : j + 1 = nt
    · have hc0 : c = 0 := by omega
      subst hc0
      simp only [accel_loop, accel_rows_from, accel_row, if_pos hfin,
        Nat.add_sub_cancel]
      congr 1
      simp only [AccelRow.mk.injEq, and_true, true_and]
      exact hci
    · simp only [accel_loop, accel_rows_from, accel_row, if_neg hfin,
        Nat.add_sub_cancel]
      have hout : pay_forward principal y inc j -
          (inc - pay_forward principal y inc j * y) =
          pay_forward principal y inc (j + 1) := by
        rw [hb]; ring
      congr 1
      · simp only [AccelRow.mk.injEq, and_true, true_and]
        exact ⟨congrArg (max 0) hout, hci⟩
      · rw [hout, hci]
        have htail := ih (j + 1 + 1) (by omega) (by omega)
        rw [Nat.add_sub_cancel] at htail
        exact htail

lemma accel_rows_from_length (principal y inc : ℚ) (nt : ℕ) :
    ∀ (c k : ℕ), (accel_rows_from principal y inc nt k c).length = c := by
  intro c
  induction c with
  | zero => intro k; rfl
  | succ c ih => intro k; simp [accel_rows_from, ih (k + 1)]

lemma accel_rows_from_get (principal y inc : ℚ) (nt : ℕ) :
    ∀ (c k j : ℕ) (h : j < (accel_rows_from principal y inc nt k c).length),
      (accel_rows_from principal y inc nt k c).get ⟨j, h⟩ =
        accel_row principal y inc nt (k + j) := by
  intro c
  induction c with
  | zero => intro k j h; simp [accel_rows_from_length] at h
  | succ c ih =>
    intro k j h
    cases j with
    | zero => simp [accel_rows_from]
    | succ j =>
      show (accel_row principal y inc nt k ::
          accel_rows_from principal y inc nt (k + 1) c).get ⟨j + 1, h⟩ =
        accel_row principal y inc nt (k + (j + 1))
      simp only [List.get_cons_succ]
      rw [ih (k + 1) j, show k + 1 + j = k + (j + 1) from by omega]

lemma accel_rows_from_getLast (principal y inc : ℚ) (nt : ℕ) :
    ∀ (c k : ℕ), (accel_rows_from principal y inc nt k (c + 1)).getLast? =
      some (accel_row principal y inc nt (k + c)) := by
  intro c
  induction c with
  | zero => intro k; rfl
  | succ c ih =>
    intro k
    have he : accel_rows_from principal y inc nt k (c + 1 + 1) =
        accel_row principal y inc nt k ::
          accel_row principal y inc nt (k + 1) ::
            accel_rows_from principal y inc nt (k + 1 + 1) c := rfl
    rw [he, List.getLast?_cons_cons]
    have he2 : accel_row principal y inc nt (k + 1) ::
        accel_rows_from principal y inc nt (k + 1 + 1) c =
        accel_rows_from principal y inc nt (k + 1) (c + 1) := rfl
    rw [he2, ih (k + 1), show k + 1 + c = k + (c + 1) from by omega]

lemma accel_rows_from_mem (principal y inc : ℚ) (nt : ℕ) :
    ∀ (c k : ℕ) (row : AccelRow),
      row ∈ accel_rows_from principal y inc nt k c →
        ∃ i, i < c ∧ row = accel_row principal y inc nt (k + i) := by
  intro c
  induction c with
  | zero => intro k row h; simp [accel_rows_from] at h
  | succ c ih =>
    intro k row h
    have he : accel_rows_from principal y inc nt k (c + 1) =
        accel_row principal y inc nt k ::
          accel_rows_from principal y inc nt (k + 1) c := rfl
    rw [he] at h
    rcases List.mem_cons.mp h with h | h
    · exact ⟨0, by omega, by simpa using h⟩
    · obtain ⟨i, hi, hrow⟩ := ih (k + 1) row h
      refine ⟨i + 1, by omega, ?_⟩
      rw [hrow, show k + 1 + i = k + (i + 1) from by omega]

/-- Every row the accelerated loop emits has a clamped, hence
non-negative, reported outstanding balance. -/
lemma accel_loop_nonneg (y inc : ℚ) (nt : ℕ) :
    ∀ (c : ℕ) (out ci : ℚ) (k : ℕ) (row : AccelRow),
      row ∈ accel_loop y inc nt out ci k c →
        0 ≤ row.outstanding_balance := by
  intro c
  induction c with
  | zero => intro out ci k row h; simp [accel_loop] at h
  | succ c ih =>
    intro out ci k row h
    simp only [accel_loop] at h
    rcases List.mem_cons.mp h with h | h
    · rw [h]
      exact le_max_left 0 _
    · exact ih _ _ _ row h

/-! ### Assorted helper facts -/

lemma freq_map_vals (s : String) (ppy : ℕ) (h : freq_map s = some ppy) :
    ppy = 12 ∨ ppy = 4 ∨ ppy = 1 := by
  unfold freq_map at h
  split_ifs at h <;> simp_all

lemma freq_map_pos (s : String) (ppy : ℕ) (h : freq_map s = some ppy) :
    0 < ppy := by
  rcases freq_map_vals s ppy h with h | h | h <;> omega

/-- The computed periodic payment is positive for a valid loan. -/
lemma payment_pos (principal annual_rate : ℚ) (years ppy : ℕ)
    (hp : 0 < principal) (hr : 0 ≤ annual_rate) (hyears : 0 < years)
    (hppy : 0 < ppy) :
    0 < (calculate_payment_with principal annual_rate years ppy).1 := by
  have h1 : (calculate_payment_with principal annual_rate years ppy).1 =
      if annual_rate / (ppy : ℚ) = 0 then principal / ((years * ppy : ℕ) : ℚ)
      else principal * ((annual_rate / ppy) *
          (1 + annual_rate / ppy) ^ (years * ppy)) /
        ((1 + annual_rate / ppy) ^ (years * ppy) - 1) := by
    rw [calculate_payment_with_eq]
  rw [h1]
  split_ifs with h0
  · have hn : (0 : ℚ) < ((years * ppy : ℕ) : ℚ) := by
      exact_mod_cast Nat.mul_pos hyears hppy
    exact div_pos hp hn
  · have hy : 0 ≤ annual_rate / (ppy : ℚ) :=
      div_nonneg hr (Nat.cast_nonneg ppy)
    have hy' : 0 < annual_rate / (ppy : ℚ) := lt_of_le_of_ne hy (Ne.symm h0)
    have h1y : (0 : ℚ) < 1 + annual_rate / ppy := by linarith
    have hn0 : years * ppy ≠ 0 := (Nat.mul_pos hyears hppy).ne'
    have hA : 1 < (1 + annual_rate / ppy) ^ (years * ppy) :=
      one_lt_pow₀ (by linarith) hn0
    have hA0 : (0 : ℚ) < (1 + annual_rate / ppy) ^ (years * ppy) :=
      pow_pos h1y _
    exact div_pos (mul_pos hp (mul_pos hy' hA0)) (by linarith)

lemma amort_loop_length (payment y : ℚ) (n : ℕ) :
    ∀ (c : ℕ) (prev ci cp : ℚ) (k : ℕ),
      (amort_loop payment y n prev ci cp k c).length = c := by
  intro c
  induction c with
  | zero => intro prev ci cp k; rfl
  | succ c ih => intro prev ci cp k; simp [amort_loop, ih]

lemma generate_core_length (principal annual_rate : ℚ) (years ppy : ℕ) :
    (generate_core principal annual_rate years ppy).1.length = years * ppy :=
  amort_loop_length _ _ _ _ _ _ _ _

lemma accel_loop_length (y inc : ℚ) (nt : ℕ) :
    ∀ (c : ℕ) (out ci : ℚ) (k : ℕ),
      (accel_loop y inc nt out ci k c).length = c := by
  intro c
  induction c with
  | zero => intro out ci k; rfl
  | succ c ih => intro out ci k; simp [accel_loop, ih]

/-- A feasible accelerated payment yields a positive new period count. -/
lemma accel_n_new_pos (principal y inc : ℚ) (hp : 0 < principal)
    (hy : 0 ≤ y) (hfeas : principal * y < inc) :
    0 < accel_n_new principal y inc := by
  unfold accel_n_new
  split_ifs with h0
  · apply Nat.ceil_pos.mpr
    apply div_pos hp
    have hz : principal * y = 0 := by rw [h0, mul_zero]
    linarith
  · have hy' : 0 < y := lt_of_le_of_ne hy (Ne.symm h0)
    apply Nat.ceil_pos.mpr
    have hpR : (0 : ℝ) < (principal : ℝ) := by exact_mod_cast hp
    have hyR : (0 : ℝ) < (y : ℝ) := by exact_mod_cast hy'
    have hfR : (principal : ℝ) * (y : ℝ) < (inc : ℝ) := by exact_mod_cast hfeas
    have hden : (0 : ℝ) < (inc : ℝ) - (principal : ℝ) * (y : ℝ) := by linarith
    apply div_pos
    · apply Real.log_pos
      rw [one_lt_div hden]
      nlinarith
    · apply Real.log_pos
      linarith

lemma calculate_accelerated_payoff_feasible (principal annual_rate op inc : ℚ)
    (frequency : String) (ppy : ℕ) (hf : freq_map frequency = some ppy)
    (hfeas : principal * (annual_rate / ppy) < inc) :
    calculate_accelerated_payoff principal annual_rate op inc frequency =
      .plan (accel_plan principal annual_rate inc ppy) := by
  unfold calculate_accelerated_payoff
  rw [hf]
  exact if_neg (not_le.mpr hfeas)

lemma calculate_accelerated_payoff_infeasible (principal annual_rate op
    inc : ℚ) (frequency : String) (ppy : ℕ)
    (hf : freq_map frequency = some ppy)
    (hle : inc ≤ principal * (annual_rate / ppy)) :
    calculate_accelerated_payoff principal annual_rate op inc frequency =
      .infeasible := by
  unfold calculate_accelerated_payoff
  rw [hf]
  exact if_pos hle

/-- The accelerated schedule, in closed-form rows. -/
lemma accel_plan_schedule_rows (principal annual_rate inc : ℚ) (ppy : ℕ) :
    (accel_plan principal annual_rate inc ppy).new_schedule =
      accel_rows_from principal (annual_rate / ppy) inc
        (accel_n_new principal (annual_rate / ppy) inc) 1
        (accel_n_new principal (annual_rate / ppy) inc) := by
  have key := accel_loop_eq_rows principal (annual_rate / ppy) inc
    (accel_n_new principal (annual_rate / ppy) inc)
    (accel_n_new principal (annual_rate / ppy) inc) 1 (le_refl 1) (by omega)
  rw [show (1 : ℕ) - 1 = 0 from rfl] at key
  rw [show pay_forward principal (annual_rate / ppy) inc 0 = principal
    from rfl] at key
  have hz : ((0 : ℕ) : ℚ) * inc + principal - principal = 0 := by
    push_cast; ring
  rw [hz] at key
  exact key

/-! ### The claims -/

/-- C1: for every valid input (`principal > 0`, `annualRate ≥ 0`,
`years > 0`, recognized frequency), `computePayment` returns
`periodRate = annualRate / periodsPerYear`,
`periodCount = years * periodsPerYear`, and the payment is
`principal / periodCount` when the period rate is zero and the annuity
formula `principal * (r * (1+r)^n) / ((1+r)^n - 1)` otherwise. -/
theorem payment_formula_correct (principal annual_rate : ℚ) (years : ℕ)
    (frequency : String) (ppy : ℕ)
    (hp : 0 < principal) (hr : 0 ≤ annual_rate) (hyears : 0 < years)
    (hf : freq_map frequency = some ppy) :
    calculate_payment principal annual_rate years frequency =
      some (if annual_rate / (ppy : ℚ) = 0
          then principal / ((years * ppy : ℕ) : ℚ)
          else principal * ((annual_rate / ppy) *
              (1 + annual_rate / ppy) ^ (years * ppy)) /
            ((1 + annual_rate / ppy) ^ (years * ppy) - 1),
        annual_rate / ppy, years * ppy) := by
  unfold calculate_payment
  rw [hf, Option.map_some']
  exact congrArg some (calculate_payment_with_eq principal annual_rate years ppy)

theorem payment_formula_correct_witness :
    calculate_payment 1200 0 1 "monthly" = some (100, 0, 12) := by
  have h := payment_formula_correct 1200 0 1 "monthly" 12 (by norm_num)
    (le_refl 0) (by norm_num) (by decide)
  rw [h]
  norm_num

/-- C2: for `0 ≤ k ≤ n` and `r ≥ 0`, `outstandingBalance` returns exactly
`0` when no periods remain (`k = n`), `payment * (n-k)` when the period
rate is zero, and the PV-of-annuity formula
`payment * ((1+r)^(n-k) - 1) / (r * (1+r)^(n-k))` otherwise. -/
theorem outstanding_pv_formula_correct (payment y : ℚ) (n k : ℕ)
    (hk : k ≤ n) (hy : 0 ≤ y) :
    (k = n → calculate_outstanding_pv payment y n k = 0) ∧
    (k < n → y = 0 → calculate_outstanding_pv payment y n k =
      payment * ((n - k : ℕ) : ℚ)) ∧
    (k < n → 0 < y → calculate_outstanding_pv payment y n k =
      payment * ((1 + y) ^ (n - k) - 1) / (y * (1 + y) ^ (n - k))) := by
  refine ⟨?_, ?_, ?_⟩
  · intro h
    subst h
    rw [calculate_outstanding_pv_eq_pv_remaining, Nat.sub_self,
      pv_remaining_zero]
  · intro _ h0
    subst h0
    rw [calculate_outstanding_pv_eq_pv_remaining, pv_remaining_zero_rate]
  · intro _ hy'
    rw [calculate_outstanding_pv_eq_pv_remaining,
      pv_remaining_of_ne_zero payment y (ne_of_gt hy')]

theorem outstanding_pv_formula_correct_witness :
    calculate_outstanding_pv 50 0 4 4 = 0 ∧
    calculate_outstanding_pv 50 0 4 1 = 50 * ((3 : ℕ) : ℚ) := by
  constructor
  · exact (outstanding_pv_formula_correct 50 0 4 4 (le_refl 4)
      (le_refl 0)).1 rfl
  · exact (outstanding_pv_formula_correct 50 0 4 1 (by omega)
      (le_refl 0)).2.1 (by omega) rfl

/-- C9: `computePayment` fails exactly when the frequency does not map to
a recognized periods-per-year value; every recognized value is 12, 4 or 1;
and the three recognized frequencies succeed. -/
theorem invalid_frequency_error (principal annual_rate : ℚ) (years : ℕ)
    (frequency : String) :
    (calculate_payment principal annual_rate years frequency = none ↔
      freq_map frequency = none) ∧
    (∀ ppy, freq_map frequency = some ppy →
      ppy = 12 ∨ ppy = 4 ∨ ppy = 1) ∧
    (calculate_payment principal annual_rate years "monthly").isSome ∧
    (calculate_payment principal annual_rate years "quarterly").isSome ∧
    (calculate_payment principal annual_rate years "annual").isSome := by
  refine ⟨?_, fun ppy h => freq_map_vals frequency ppy h, ?_, ?_, ?_⟩
  · unfold calculate_payment
    exact Option.map_eq_none'
  · show ((freq_map "monthly").map _).isSome
    rw [show freq_map "monthly" = some 12 from by decide]
    rfl
  · show ((freq_map "quarterly").map _).isSome
    rw [show freq_map "quarterly" = some 4 from by decide]
    rfl
  · show ((freq_map "annual").map _).isSome
    rw [show freq_map "annual" = some 1 from by decide]
    rfl

/-- C10: two calls to `computeAcceleratedPayoff` differing only in
`originalPayment` return identical results: that argument never
influences the output. -/
theorem original_payment_has_no_influence (principal annual_rate op1 op2
    increased_payment : ℚ) (frequency : String) :
    calculate_accelerated_payoff principal annual_rate op1
        increased_payment frequency =
      calculate_accelerated_payoff principal annual_rate op2
        increased_payment frequency := rfl

/-- C4: with a recognized frequency, `computeAcceleratedPayoff` returns
the infeasible sentinel iff `increasedPayment ≤ principal * periodRate`
(the interest-only floor), and any payment strictly above the floor
yields a feasible plan. -/
theorem infeasibility_boundary (principal annual_rate op inc : ℚ)
    (frequency : String) (ppy : ℕ)
    (hp : 0 < principal) (hr : 0 ≤ annual_rate)
    (hf : freq_map frequency = some ppy) :
    (calculate_accelerated_payoff principal annual_rate op inc frequency =
        .infeasible ↔ inc ≤ principal * (annual_rate / ppy)) ∧
    (principal * (annual_rate / ppy) < inc →
      ∃ P, calculate_accelerated_payoff principal annual_rate op inc
        frequency = .plan P) := by
  constructor
  · constructor
    · intro h
      by_contra hc
      push_neg at hc
      rw [calculate_accelerated_payoff_feasible principal annual_rate op
        inc frequency ppy hf hc] at h
      exact absurd h (by simp)
    · intro h
      exact calculate_accelerated_payoff_infeasible principal annual_rate
        op inc frequency ppy hf h
  · intro h
    exact ⟨_, calculate_accelerated_payoff_feasible principal annual_rate
      op inc frequency ppy hf h⟩

theorem infeasibility_boundary_witness :
    calculate_accelerated_payoff 100 0 0 0 "annual" =
      AccelResult.infeasible ∧
    ∃ P, calculate_accelerated_payoff 100 0 0 30 "annual" =
      AccelResult.plan P :=
  ⟨(infeasibility_boundary 100 0 0 0 "annual" 1 (by norm_num) (le_refl 0)
      (by decide)).1.mpr (by norm_num),
   (infeasibility_boundary 100 0 0 30 "annual" 1 (by norm_num) (le_refl 0)
      (by decide)).2 (by norm_num)⟩

/-- C5: for every feasible call, the new period count is the ceiling of
`principal / increasedPayment` when the period rate is zero, and the
ceiling of `ln(inc / (inc - principal*r)) / ln(1+r)` otherwise. -/
theorem new_period_count_formula (principal annual_rate op inc : ℚ)
    (frequency : String) (ppy : ℕ)
    (hf : freq_map frequency = some ppy)
    (hfeas : principal * (annual_rate / ppy) < inc) :
    ∀ P, calculate_accelerated_payoff principal annual_rate op inc
        frequency = .plan P →
      P.n_new = if annual_rate / (ppy : ℚ) = 0
        then ⌈principal / inc⌉₊
        else ⌈Real.log ((inc : ℝ) / ((inc : ℝ) -
            (principal : ℝ) * ((annual_rate / ppy : ℚ) : ℝ))) /
          Real.log (1 + ((annual_rate / ppy : ℚ) : ℝ))⌉₊ := by
  intro P hP
  rw [calculate_accelerated_payoff_feasible principal annual_rate op inc
    frequency ppy hf hfeas] at hP
  injection hP with h
  subst h
  rfl

theorem new_period_count_formula_witness :
    (accel_plan 100 0 30 1).n_new = 4 := by
  have h := new_period_count_formula 100 0 0 30 "annual" 1 (by decide)
    (by norm_num) (accel_plan 100 0 30 1)
    (calculate_accelerated_payoff_feasible 100 0 0 30 "annual" 1
      (by decide) (by norm_num))
  rw [h, if_pos (by norm_num)]
  rw [Nat.ceil_eq_iff (by norm_num)]
  norm_num

/-- C3: for every feasible call, the solver regenerates a reference
schedule from the original principal, rate and frequency over a term of
`n_new / periodsPerYear + 5` years (so with `(n_new/ppy + 5) * ppy` rows),
and returns `periodsSaved` as that reference length minus the new period
count and `interestSaved` as the reference schedule's final cumulative
interest minus the new schedule's final cumulative interest. -/
theorem savings_against_padded_reference (principal annual_rate op inc : ℚ)
    (frequency : String) (ppy : ℕ)
    (hf : freq_map frequency = some ppy)
    (hfeas : principal * (annual_rate / ppy) < inc) :
    ∀ P, calculate_accelerated_payoff principal annual_rate op inc
        frequency = .plan P →
      (generate_core principal annual_rate (P.n_new / ppy + 5) ppy).1.length
          = (P.n_new / ppy + 5) * ppy ∧
      P.periods_saved = ((generate_core principal annual_rate
          (P.n_new / ppy + 5) ppy).1.length : ℤ) - (P.n_new : ℤ) ∧
      P.interest_saved = ((generate_core principal annual_rate
          (P.n_new / ppy + 5) ppy).1.map
            fun r => r.cumulative_interest).getLastD 0 -
        ((P.new_schedule.map fun r => r.cumulative_interest).getLastD 0) := by
  intro P hP
  rw [calculate_accelerated_payoff_feasible principal annual_rate op inc
    frequency ppy hf hfeas] at hP
  injection hP with h
  subst h
  exact ⟨generate_core_length principal annual_rate _ ppy, rfl, rfl⟩

theorem savings_against_padded_reference_witness :
    (accel_plan 100 0 30 1).periods_saved =
      ((generate_core 100 0 ((accel_plan 100 0 30 1).n_new / 1 + 5)
          1).1.length : ℤ) - ((accel_plan 100 0 30 1).n_new : ℤ) :=
  (savings_against_padded_reference 100 0 0 30 "annual" 1 (by decide)
    (by norm_num) (accel_plan 100 0 30 1)
    (calculate_accelerated_payoff_feasible 100 0 0 30 "annual" 1
      (by decide) (by norm_num))).2.1

/-- C8: when `payment` is the annuity payment for `principal` over `n`
periods at rate `r > 0`, the closed-form outstanding balance computed by
`calculate_outstanding_pv` agrees, at every `0 ≤ k ≤ n`, with the balance
obtained by the iterative recurrence
`balance_k = balance_(k-1) * (1+r) - payment` from `balance_0 = principal`
(exact arithmetic): the two formulations are equivalent. -/
theorem closed_form_balance_matches_recurrence (principal payment y : ℚ)
    (n : ℕ) (hy : 0 < y) (hn : 0 < n)
    (hpay : payment = principal * (y * (1 + y) ^ n) / ((1 + y) ^ n - 1)) :
    ∀ k ≤ n, calculate_outstanding_pv payment y n k =
      iterative_balance principal payment y k := by
  have h1 : (1 : ℚ) + y ≠ 0 := ne_of_gt (by linarith)
  intro k
  induction k with
  | zero =>
    intro _
    rw [calculate_outstanding_pv_eq_pv_remaining, Nat.sub_zero]
    show pv_remaining payment y n = principal
    refine payment_pv_full principal y n (le_of_lt hy) hn payment ?_
    rw [if_neg (ne_of_gt hy)]
    exact hpay
  | succ k ih =>
    intro hk
    rw [ob_step payment y n k h1 (by omega), ih (by omega)]
    rfl

theorem closed_form_balance_matches_recurrence_witness :
    calculate_outstanding_pv 200 1 1 1 = iterative_balance 100 200 1 1 :=
  closed_form_balance_matches_recurrence 100 200 1 1 one_pos one_pos
    (by norm_num) 1 (le_refl 1)

/-- C7: every schedule generated from valid loan terms satisfies
`paymentAmount = interestPaid + principalPaid` in every row, has exactly
`n` rows, has a monotonically non-increasing outstanding balance across
consecutive rows, and its final row (`k = n`) carries an outstanding
balance of exactly `0` and a cumulative principal equal to the
principal. -/
theorem schedule_invariants (principal annual_rate : ℚ) (years : ℕ)
    (frequency : String) (ppy : ℕ)
    (hp : 0 < principal) (hr : 0 ≤ annual_rate) (hyears : 0 < years)
    (hf : freq_map frequency = some ppy) :
    ∀ S payment y n,
      generate_amortization_schedule principal annual_rate years frequency
        = some (S, payment, y, n) →
      (∀ row ∈ S, row.payment_amount =
        row.interest_paid + row.principal_paid) ∧
      S.length = n ∧
      (∀ r1 ∈ S, ∀ r2 ∈ S, r2.payment_number = r1.payment_number + 1 →
        r2.outstanding_balance ≤ r1.outstanding_balance) ∧
      (∀ r, S.getLast? = some r → r.payment_number = n ∧
        r.outstanding_balance = 0 ∧ r.cumulative_principal = principal) := by
  intro S payment y n hgen
  have hppy : 0 < ppy := freq_map_pos frequency ppy hf
  unfold generate_amortization_schedule at hgen
  rw [hf, Option.map_some'] at hgen
  injection hgen with hgen
  have hS : (generate_core principal annual_rate years ppy).1 = S :=
    congrArg Prod.fst hgen
  have hpayment : (calculate_payment_with principal annual_rate years
      ppy).1 = payment := congrArg (fun t => t.2.1) hgen
  have hy2 : annual_rate / (ppy : ℚ) = y :=
    congrArg (fun t => t.2.2.1) hgen
  have hn : years * ppy = n := congrArg (fun t => t.2.2.2) hgen
  subst hS hpayment hy2 hn
  rw [generate_core_rows principal annual_rate years ppy hr hyears hppy]
  have hY : 0 ≤ annual_rate / (ppy : ℚ) :=
    div_nonneg hr (Nat.cast_nonneg ppy)
  have hN : 0 < years * ppy := Nat.mul_pos hyears hppy
  have hpaypos : 0 < (calculate_payment_with principal annual_rate years
      ppy).1 := payment_pos principal annual_rate years ppy hp hr hyears hppy
  refine ⟨?_, ?_, ?_, ?_⟩
  · intro row hrow
    obtain ⟨i, hi, hrw⟩ := amort_rows_from_mem _ _ principal _ _ 1 row hrow
    rw [hrw]
    simp only [amort_row]
    ring
  · exact amort_rows_from_length _ _ principal _ _ 1
  · intro r1 h1 r2 h2 hcons
    obtain ⟨i1, hi1, hr1⟩ := amort_rows_from_mem _ _ principal _ _ 1 r1 h1
    obtain ⟨i2, hi2, hr2⟩ := amort_rows_from_mem _ _ principal _ _ 1 r2 h2
    rw [hr1, hr2] at hcons ⊢
    have hii : i2 = i1 + 1 := by
      have : 1 + i2 = 1 + i1 + 1 := hcons
      omega
    subst hii
    show calculate_outstanding_pv _ _ (years * ppy) (1 + (i1 + 1)) ≤
      calculate_outstanding_pv _ _ (years * ppy) (1 + i1)
    rw [calculate_outstanding_pv_eq_pv_remaining,
      calculate_outstanding_pv_eq_pv_remaining]
    exact pv_remaining_mono _ _ (le_of_lt hpaypos) hY (by omega)
  · intro r hlast
    obtain ⟨m, hm⟩ : ∃ m, years * ppy = m + 1 := ⟨years * ppy - 1, by omega⟩
    rw [hm] at hlast ⊢
    rw [amort_rows_from_getLast] at hlast
    injection hlast with hlast
    rw [← hlast]
    refine ⟨by simp only [amort_row]; omega, ?_, ?_⟩
    · show calculate_outstanding_pv _ _ (m + 1) (1 + m) = 0
      rw [calculate_outstanding_pv_eq_pv_remaining,
        show m + 1 - (1 + m) = 0 from by omega, pv_remaining_zero]
    · show principal - calculate_outstanding_pv _ _ (m + 1) (1 + m) =
        principal
      rw [calculate_outstanding_pv_eq_pv_remaining,
        show m + 1 - (1 + m) = 0 from by omega, pv_remaining_zero]
      ring

theorem schedule_invariants_witness :
    (generate_core 100 0 1 1).1.length = 1 := by
  have h := schedule_invariants 100 0 1 "annual" 1 (by norm_num)
    (le_refl 0) (by norm_num) (by decide)
    (generate_core 100 0 1 1).1 (generate_core 100 0 1 1).2.1
    (generate_core 100 0 1 1).2.2.1 (generate_core 100 0 1 1).2.2.2
    (by unfold generate_amortization_schedule
        rw [show freq_map "annual" = some 1 from by decide,
          Option.map_some'])
  exact h.2.1

/-- C6: in every feasible accelerated schedule, each row whose payment
index is not the final `n_new` uses the fixed `increasedPayment` split —
interest equal to the carried (previous) outstanding balance times the
period rate, principal the remainder — while the final row's principal
payment is the entire remaining balance, its payment amount is that
balance plus the period's interest, and every row's reported
outstanding balance is clamped non-negative. -/
theorem final_period_and_clamping (principal annual_rate op inc : ℚ)
    (frequency : String) (ppy : ℕ)
    (hp : 0 < principal) (hr : 0 ≤ annual_rate)
    (hf : freq_map frequency = some ppy)
    (hfeas : principal * (annual_rate / ppy) < inc) :
    ∀ P, calculate_accelerated_payoff principal annual_rate op inc
        frequency = .plan P →
      P.new_schedule.length = P.n_new ∧
      (∀ row ∈ P.new_schedule, row.payment_number ≠ P.n_new →
        row.payment_amount = inc ∧
        row.interest_paid = pay_forward principal (annual_rate / ppy) inc
          (row.payment_number - 1) * (annual_rate / ppy) ∧
        row.principal_paid = inc - pay_forward principal (annual_rate / ppy)
          inc (row.payment_number - 1) * (annual_rate / ppy)) ∧
      (∀ r, P.new_schedule.getLast? = some r →
        r.payment_number = P.n_new ∧
        r.principal_paid = pay_forward principal (annual_rate / ppy) inc
          (P.n_new - 1) ∧
        r.interest_paid = pay_forward principal (annual_rate / ppy) inc
          (P.n_new - 1) * (annual_rate / ppy) ∧
        r.payment_amount = r.principal_paid + r.interest_paid) ∧
      (∀ row ∈ P.new_schedule, 0 ≤ row.outstanding_balance) := by
  intro P hP
  rw [calculate_accelerated_payoff_feasible principal annual_rate op inc
    frequency ppy hf hfeas] at hP
  injection hP with h
  subst h
  have hY : 0 ≤ annual_rate / (ppy : ℚ) :=
    div_nonneg hr (Nat.cast_nonneg ppy)
  refine ⟨?_, ?_, ?_, ?_⟩
  · exact accel_loop_length _ _ _ _ _ _ _
  · intro row hrow hne
    rw [accel_plan_schedule_rows] at hrow
    obtain ⟨i, hi, hrw⟩ := accel_rows_from_mem principal _ inc _ _ 1 row hrow
    have hpn : row.payment_number = 1 + i := by
      rw [hrw]; unfold accel_row; split_ifs <;> rfl
    have hne' : 1 + i ≠ accel_n_new principal (annual_rate / ppy) inc := by
      rw [← hpn]; exact hne
    rw [hpn, hrw]
    simp only [accel_row, if_neg hne']
    exact ⟨trivial, trivial, trivial⟩
  · intro r hlast
    rw [accel_plan_schedule_rows] at hlast
    have hpos : 0 < accel_n_new principal (annual_rate / ppy) inc :=
      accel_n_new_pos principal _ inc hp hY hfeas
    obtain ⟨m, hm⟩ : ∃ m, accel_n_new principal (annual_rate / ppy) inc =
        m + 1 := ⟨accel_n_new principal (annual_rate / ppy) inc - 1, by omega⟩
    rw [show (accel_plan principal annual_rate inc ppy).n_new =
      accel_n_new principal (annual_rate / ppy) inc from rfl]
    rw [hm] at hlast ⊢
    rw [accel_rows_from_getLast] at hlast
    injection hlast with hlast
    rw [← hlast]
    have hfin : 1 + m = m + 1 := by omega
    simp only [accel_row, if_pos hfin]
    refine ⟨by omega, ?_, ?_, trivial⟩
    · rw [show 1 + m - 1 = m from by omega, show m + 1 - 1 = m from by omega]
    · rw [show 1 + m - 1 = m from by omega, show m + 1 - 1 = m from by omega]
  · intro row hrow
    exact accel_loop_nonneg (annual_rate / ppy) inc
      (accel_n_new principal (annual_rate / ppy) inc)
      (accel_n_new principal (annual_rate / ppy) inc) principal 0 1 row hrow

theorem final_period_and_clamping_witness :
    (accel_plan 100 0 30 1).new_schedule.length =
      (accel_plan 100 0 30 1).n_new :=
  (final_period_and_clamping 100 0 0 30 "annual" 1 (by norm_num)
    (le_refl 0) (by decide) (by norm_num) (accel_plan 100 0 30 1)
    (calculate_accelerated_payoff_feasible 100 0 0 30 "annual" 1
      (by decide) (by norm_num))).1

end Mortgage
